import Mathlib

/-!
# LC-3 emulator and assembler reader: a shallow embedding

The definitions below follow `src/lc3emulator/CPU.cpp` and `src/reader.cpp`
function by function.
Machine integers are natural numbers with an explicit remainder wherever the
C++ code narrows: `% 65536` for a `uint16_t`, `% 256` for a `uint8_t`.

`CPU.hpp` declares `m_registers` as `std::array<uint8_t, 8>` and `m_pc` as
`uint16_t`; both declarations are followed.  What `CPU.cpp` uses and no source
file declares (`m_conditionalCodes`, `StatusCode`, `Register`, `Traps`, and a
memory with a `write` member, which the `std::array` of `CPU.hpp` has not) is
modelled and marked as such.
-/

namespace LC3

/-! ## Bit fields (anonymous namespace of CPU.cpp) -/

/-- The function `retrieveBits(insturction, start, size)`: the `size` bits of the word whose
most significant one sits at position `start`.  The shift amount is
`start - size + 1`, written `start + 1 - size` so that it is computed without
an intermediate negative number; every call site has `size ≤ start + 1`. -/
def retrieveBits (insturction start size : Nat) : Nat :=
  let mask := ((1 <<< size) - 1) % 65536
  (insturction >>> (start + 1 - size)) &&& mask

/-- The function `signExtend(offset, bitCount)`: when bit `bitCount - 1` is set, the bits
from `bitCount` upward are filled with ones (`0xFFFF << bitCount`), and the
result is truncated to 16 bits by the assignment to a `uint16_t`. -/
def signExtend (offset bitCount : Nat) : Nat :=
  if (offset >>> (bitCount - 1)) &&& 0x1 ≠ 0 then
    (offset ||| (0xFFFF <<< bitCount)) % 65536
  else offset

/-- The function `getDestinationRegisterNumber`: bits [11:9]. -/
def getDestinationRegisterNumber (insturction : Nat) : Nat :=
  retrieveBits insturction 11 3

/-- The function `getSourceBaseRegisterNumber`: bits [8:6]. -/
def getSourceBaseRegisterNumber (insturction : Nat) : Nat :=
  retrieveBits insturction 8 3

/-! ## Enumerations -/

/-- The enumerator `R0` of `Register`.  The enumeration is not declared in
the sources; `CPU.cpp` casts three-bit fields to it, so a register is its
number `0 .. 7`. -/
def R0 : Nat := 0
/-- The enumerator `R7` of `Register`, the link register. -/
def R7 : Nat := 7

/-- Modelled from the spec: the `StatusCode` enumeration returned by
`CPU::emulate`; `CPU.cpp` names its two values, its declaration is missing. -/
inductive StatusCode where
  | SUCCESS
  | HALTED
deriving DecidableEq, Repr

/-- Opcode values, bits [15:12] of a word.  The values are those of the
enumeration in `CPU.hpp`; `CPU.cpp` calls `0b0100` `JSR_JSRR` and `0b1100`
`JMP_RET`, and has no case for `0b1101`. -/
def opBR : Nat := 0b0000
/-- Opcode `ADD`. -/
def opADD : Nat := 0b0001
/-- Opcode `LD`. -/
def opLD : Nat := 0b0010
/-- Opcode `ST`. -/
def opST : Nat := 0b0011
/-- Opcode `JSR_JSRR`. -/
def opJSR_JSRR : Nat := 0b0100
/-- Opcode `AND`. -/
def opAND : Nat := 0b0101
/-- Opcode `LDR`. -/
def opLDR : Nat := 0b0110
/-- Opcode `STR`. -/
def opSTR : Nat := 0b0111
/-- Opcode `RTI`. -/
def opRTI : Nat := 0b1000
/-- Opcode `NOT`. -/
def opNOT : Nat := 0b1001
/-- Opcode `LDI`. -/
def opLDI : Nat := 0b1010
/-- Opcode `STI`. -/
def opSTI : Nat := 0b1011
/-- Opcode `JMP_RET`. -/
def opJMP_RET : Nat := 0b1100
/-- The reserved opcode, for which `CPU::emulate` has no case. -/
def opReserved : Nat := 0b1101
/-- Opcode `LEA`. -/
def opLEA : Nat := 0b1110
/-- Opcode `TRAP`. -/
def opTRAP : Nat := 0b1111

/-- Modelled from the spec: the trap vector `GETC` of the `Traps` enumeration,
whose declaration is missing (the spec names `TRAP x25` as HALT; the six
services are the consecutive vectors `x20 .. x25`). -/
def trapGETC : Nat := 0x20
/-- Modelled from the spec: trap vector `OUT`. -/
def trapT_OUT : Nat := 0x21
/-- Modelled from the spec: trap vector `PUTS`. -/
def trapPUTS : Nat := 0x22
/-- Modelled from the spec: trap vector `IN`. -/
def trapT_IN : Nat := 0x23
/-- Modelled from the spec: trap vector `PUTSP`. -/
def trapPUTSP : Nat := 0x24
/-- Modelled from the spec: trap vector `HALT`. -/
def trapHALT : Nat := 0x25

/-! ## Machine state -/

/-- Modelled from the spec: the memory image, an array of 65536 words indexed
by a 16-bit address.  The class behind `m_memory`, with `operator[]` and
`write` as `CPU.cpp` calls them, is missing from the sources: the
`std::array` that `CPU.hpp` declares under that name has no `write` member. -/
abbrev Memory := Nat → Nat

/-- Modelled from the spec: the read `m_memory[address]` of the missing memory
class; the index is an address, a 16-bit word. -/
def Memory.read (m : Memory) (address : Nat) : Nat :=
  m (address % 65536)

/-- Modelled from the spec: the call `m_memory.write(address, value)` of the
missing memory class; the address and the value are 16-bit words. -/
def Memory.write (m : Memory) (address value : Nat) : Memory :=
  fun a => if a = address % 65536 then value % 65536 else m a

/-- The three flags of `m_conditionalCodes`. -/
structure ConditionalCodes where
  N : Bool
  Z : Bool
  P : Bool
deriving DecidableEq, Repr

/-- The members of `CPU` that `CPU.cpp` uses, together with the two character
streams of the process: `stdin` holds the bytes `getchar` has yet to deliver
(empty means end of input) and `stdout` the bytes written so far.  The
registers are the eight `uint8_t` elements of `m_registers`, indexed by
register number; `m_pc` is a `uint16_t`. -/
structure CPU where
  m_memory : Memory
  m_registers : Nat → Nat
  m_pc : Nat
  m_conditionalCodes : ConditionalCodes
  stdin : List Nat
  stdout : List Nat

/-- Bytes of a string literal written to `stdout`. -/
def bytesOf (s : String) : List Nat :=
  s.toList.map Char.toNat

/-- The constructor `CPU::CPU()` sets the three flags to false and nothing else;
the other members are whatever the caller provides. -/
def CPU.init (memory : Memory) (registers : Nat → Nat) (pc : Nat)
    (input : List Nat) : CPU :=
  { m_memory := memory, m_registers := registers, m_pc := pc,
    m_conditionalCodes := { N := false, Z := false, P := false },
    stdin := input, stdout := [] }

/-- Assignment `m_registers[r] = value`.  The elements of `m_registers` are
`uint8_t` (`CPU.hpp`), so the value is narrowed to its low 8 bits. -/
def CPU.setRegister (cpu : CPU) (r value : Nat) : CPU :=
  { cpu with m_registers := fun k => if k = r then value % 256 else cpu.m_registers k }

/-- The comparison `value < 0` on a register value.  `signedRegs = false` is
the element type `CPU.hpp` declares, `uint8_t`, for which the comparison is
never true.  `signedRegs = true` lets the comparison read bit 7 as a sign, as
a signed element type would; it is kept so that no theorem rests on the
comparison being dead. -/
def isNegative (signedRegs : Bool) (value : Nat) : Bool :=
  signedRegs && decide (128 ≤ value)

/-- The method `CPU::setConditionalCodes`: one flag is set to true according to the value
of the named register; no flag is set to false. -/
def CPU.setConditionalCodes (signedRegs : Bool) (cpu : CPU)
    (destinationRegisterNumber : Nat) : CPU :=
  let destinationRegisterNumberValue := cpu.m_registers destinationRegisterNumber
  if isNegative signedRegs destinationRegisterNumberValue then
    { cpu with m_conditionalCodes := { cpu.m_conditionalCodes with N := true } }
  else if destinationRegisterNumberValue = 0 then
    { cpu with m_conditionalCodes := { cpu.m_conditionalCodes with Z := true } }
  else
    { cpu with m_conditionalCodes := { cpu.m_conditionalCodes with P := true } }

/-- The method `CPU::getOpCode`: bits [15:12]. -/
def getOpCode (instruction : Nat) : Nat :=
  retrieveBits instruction 15 4

/-! ## Results of a call -/

/-- Why a call did not return: one of the two `assert(false)` sites was
reached. -/
inductive Abort where
  | illegalInstruction
  | unsupportedTrap
deriving DecidableEq, Repr

/-- What a call of `CPU::emulate` does: it returns a status code, or it stops at
a failed assertion (the state is the one at the assertion), or a loop inside
it never ends. -/
inductive Outcome where
  | returned (code : StatusCode) (cpu : CPU)
  | aborted (why : Abort) (cpu : CPU)
  | diverged

/-- The library call `getchar()`: the next byte of the input, or `none` for `EOF`. -/
def CPU.getchar (cpu : CPU) : Option Nat × CPU :=
  match cpu.stdin with
  | [] => (none, cpu)
  | c :: rest => (some (c % 256), { cpu with stdin := rest })

/-- The library call `putchar(c)`: one byte is appended to the output. -/
def CPU.putchar (cpu : CPU) (c : Nat) : CPU :=
  { cpu with stdout := cpu.stdout ++ [c % 256] }

/-- The loop `while (m_memory[stringPointer] != 0) out += m_memory[stringPointer++]`
of the PUTS and PUTSP traps; each memory word is narrowed to a `char` when it
is appended.  `none` when the fuel runs out. -/
def collectString (m : Memory) : Nat → Nat → List Nat → Option (List Nat)
  | 0, _, _ => none
  | fuel + 1, stringPointer, out =>
    if m.read stringPointer ≠ 0 then
      collectString m fuel ((stringPointer + 1) % 65536) (out ++ [m.read stringPointer % 256])
    else some out

/-- The statements after the `switch`: `restore_input_buffering()` touches
only the terminal, then `return StatusCode::SUCCESS`. -/
def success (cpu : CPU) : Outcome :=
  Outcome.returned StatusCode.SUCCESS cpu

/-- The `TRAP` case of `CPU::emulate(uint16_t)`.  The string loops of PUTS and
PUTSP do not change memory, so 65536 rounds visit every address: when they
find no zero word the loop never ends. -/
def CPU.emulateTrap (signedRegs : Bool) (instruction : Nat) (cpu : CPU) : Outcome :=
  let trapVector := retrieveBits instruction 7 8 % 256
  if trapVector = trapGETC then
    -- uint16_t charFromKeyboard = getchar();  (EOF = -1 becomes 0xFFFF)
    let (c, cpu1) := cpu.getchar
    let charFromKeyboard := match c with | some b => b | none => 0xFFFF
    let cpu2 := { cpu1 with m_memory := cpu1.m_memory.write R0 charFromKeyboard }
    success (cpu2.setConditionalCodes signedRegs R0)
  else if trapVector = trapT_OUT then
    success (cpu.putchar (cpu.m_memory.read 0))
  else if trapVector = trapPUTS then
    let stringPointer := cpu.m_registers R0
    match collectString cpu.m_memory 65536 stringPointer [] with
    | none => Outcome.diverged
    | some out =>
      success { cpu with m_pc := (cpu.m_pc + out.length) % 65536,
                         stdout := cpu.stdout ++ out ++ [10] }
  else if trapVector = trapT_IN then
    -- char charFromKeyboard = getchar();  (a signed char: bytes from 128 and
    -- EOF are negative and widen to 0xFF80 .. 0xFFFF)
    let (c, cpu1) := cpu.getchar
    let byte := match c with | some b => b | none => 0xFF
    let charFromKeyboard := if byte < 128 then byte else byte + 0xFF00
    let cpu2 := cpu1.putchar byte
    let cpu3 := { cpu2 with m_memory := cpu2.m_memory.write R0 charFromKeyboard }
    success (cpu3.setConditionalCodes signedRegs R0)
  else if trapVector = trapPUTSP then
    let stringPointer := cpu.m_registers R0
    match collectString cpu.m_memory 65536 stringPointer [] with
    | none => Outcome.diverged
    | some out => success { cpu with m_pc := (cpu.m_pc + out.length) % 65536 }
  else if trapVector = trapHALT then
    Outcome.returned StatusCode.HALTED { cpu with stdout := cpu.stdout ++ bytesOf "HALT\n" }
  else
    Outcome.aborted Abort.unsupportedTrap cpu

/-- The method `CPU::emulate(uint16_t instruction)`: decode the opcode and execute the
word on the current state. -/
def CPU.emulate (signedRegs : Bool) (instruction : Nat) (cpu : CPU) : Outcome :=
  let opCode := getOpCode instruction
  if opCode = opADD then
    let destinationRegisterNumber := getDestinationRegisterNumber instruction
    let sourceRegisterNumber := getSourceBaseRegisterNumber instruction
    let cpu1 :=
      if (instruction >>> 5) &&& 0x1 ≠ 0 then
        let immediateValue := retrieveBits instruction 4 5 % 256
        cpu.setRegister destinationRegisterNumber
          (cpu.m_registers sourceRegisterNumber + immediateValue)
      else
        let secondSource := retrieveBits instruction 2 3
        cpu.setRegister destinationRegisterNumber
          (cpu.m_registers sourceRegisterNumber + cpu.m_registers secondSource)
    success (cpu1.setConditionalCodes signedRegs sourceRegisterNumber)
  else if opCode = opAND then
    let destinationRegisterNumber := getDestinationRegisterNumber instruction
    let sourceRegisterNumber := getSourceBaseRegisterNumber instruction
    let cpu1 :=
      if (instruction >>> 5) &&& 0x1 ≠ 0 then
        let immediateValue := retrieveBits instruction 4 5 % 256
        cpu.setRegister destinationRegisterNumber
          (cpu.m_registers sourceRegisterNumber &&& immediateValue)
      else
        let secondSourceReigsterNumber := retrieveBits instruction 2 3
        cpu.setRegister destinationRegisterNumber
          (cpu.m_registers sourceRegisterNumber &&& cpu.m_registers secondSourceReigsterNumber)
    success (cpu1.setConditionalCodes signedRegs destinationRegisterNumber)
  else if opCode = opBR then
    let n := (instruction >>> 11) &&& 0x1
    let z := (instruction >>> 10) &&& 0x1
    let p := (instruction >>> 9) &&& 0x1
    let offset := signExtend (retrieveBits instruction 8 9) 9
    if (n ≠ 0 ∧ cpu.m_conditionalCodes.N = true) ∨ (z ≠ 0 ∧ cpu.m_conditionalCodes.Z = true) ∨
        (p ≠ 0 ∧ cpu.m_conditionalCodes.P = true) then
      success { cpu with m_pc := (cpu.m_pc + offset) % 65536 }
    else if n = 0 ∧ z = 0 ∧ p = 0 then
      success { cpu with m_pc := (cpu.m_pc + offset) % 65536 }
    else
      success cpu
  else if opCode = opJMP_RET then
    let baseRegisterNumber := getSourceBaseRegisterNumber instruction
    success { cpu with m_pc := cpu.m_registers baseRegisterNumber }
  else if opCode = opJSR_JSRR then
    let cpu1 := cpu.setRegister R7 cpu.m_pc
    if (instruction >>> 11) &&& 0x1 ≠ 0 then
      let offset := retrieveBits instruction 10 11
      success { cpu1 with m_pc := (cpu1.m_pc + offset) % 65536 }
    else
      let baseRegisterNumber := getSourceBaseRegisterNumber instruction
      success { cpu1 with m_pc := cpu1.m_registers baseRegisterNumber }
  else if opCode = opLD then
    let destinationRegisterNumber := getDestinationRegisterNumber instruction
    let offset := retrieveBits instruction 8 9
    let cpu1 := cpu.setRegister destinationRegisterNumber (cpu.m_memory.read (cpu.m_pc + offset))
    success (cpu1.setConditionalCodes signedRegs destinationRegisterNumber)
  else if opCode = opLDI then
    let destinationRegisterNumber := getDestinationRegisterNumber instruction
    let offset := retrieveBits instruction 8 9
    let cpu1 := cpu.setRegister destinationRegisterNumber
      (cpu.m_memory.read (cpu.m_memory.read (cpu.m_pc + offset)))
    success (cpu1.setConditionalCodes signedRegs destinationRegisterNumber)
  else if opCode = opLDR then
    let destinationRegisterNumber := getDestinationRegisterNumber instruction
    let baseRegisterNumber := getSourceBaseRegisterNumber instruction
    let immediateValue := retrieveBits instruction 5 6
    let cpu1 := cpu.setRegister destinationRegisterNumber
      (cpu.m_registers baseRegisterNumber + immediateValue)
    success (cpu1.setConditionalCodes signedRegs destinationRegisterNumber)
  else if opCode = opLEA then
    let destinationRegisterNumber := getDestinationRegisterNumber instruction
    let labelOffset := retrieveBits instruction 8 9
    let cpu1 := cpu.setRegister destinationRegisterNumber (cpu.m_pc + labelOffset)
    success (cpu1.setConditionalCodes signedRegs destinationRegisterNumber)
  else if opCode = opNOT then
    let destinationRegisterNumber := getDestinationRegisterNumber instruction
    let sourceRegisterNumber := getSourceBaseRegisterNumber instruction
    let cpu1 := cpu.setRegister destinationRegisterNumber
      (65535 - cpu.m_registers sourceRegisterNumber % 65536)
    success (cpu1.setConditionalCodes signedRegs destinationRegisterNumber)
  else if opCode = opRTI then
    success cpu
  else if opCode = opST then
    let sourceRegisterNumber := getDestinationRegisterNumber instruction
    let labelOffset := retrieveBits instruction 8 9
    let memory := cpu.m_memory.write (cpu.m_pc + labelOffset)
      (cpu.m_registers sourceRegisterNumber)
    success { cpu with m_memory := memory }
  else if opCode = opSTI then
    let sourceRegisterNumber := getDestinationRegisterNumber instruction
    let labelOffset := retrieveBits instruction 8 9
    let memory := cpu.m_memory.write (cpu.m_memory.read (cpu.m_pc + labelOffset))
      (cpu.m_registers sourceRegisterNumber)
    success { cpu with m_memory := memory }
  else if opCode = opSTR then
    let sourceRegisterNumber := getDestinationRegisterNumber instruction
    let baseRegisterNumber := getSourceBaseRegisterNumber instruction
    let labelOffset := retrieveBits instruction 5 6
    let memory := cpu.m_memory.write (cpu.m_registers baseRegisterNumber + labelOffset)
      (cpu.m_registers sourceRegisterNumber)
    success { cpu with m_memory := memory }
  else if opCode = opTRAP then
    cpu.emulateTrap signedRegs instruction
  else
    Outcome.aborted Abort.illegalInstruction cpu

/-! ## The run loop -/

/-- One round of the `while (true)` loop of `CPU::emulate()`: either the loop
goes round again with a new `code`, or it leaves through a `break`, or the
call of `emulate(instruction)` does not return. -/
inductive Cycle where
  | continues (code : StatusCode) (cpu : CPU)
  | breaks (code : StatusCode) (cpu : CPU)
  | stuck (o : Outcome)

/-- The body of the loop of `CPU::emulate()`: fetch `m_memory[m_pc++]`, leave
the loop on `JMP R7`, otherwise execute the word and leave the loop when it
reports `HALTED`. -/
def CPU.cycle (signedRegs : Bool) (code : StatusCode) (cpu : CPU) : Cycle :=
  let instruction := cpu.m_memory.read cpu.m_pc
  let cpu1 := { cpu with m_pc := (cpu.m_pc + 1) % 65536 }
  if getOpCode instruction = opJMP_RET ∧ getSourceBaseRegisterNumber instruction = R7 then
    Cycle.breaks code cpu1
  else
    match cpu1.emulate signedRegs instruction with
    | Outcome.returned StatusCode.HALTED cpu2 => Cycle.breaks StatusCode.HALTED cpu2
    | Outcome.returned StatusCode.SUCCESS cpu2 => Cycle.continues StatusCode.SUCCESS cpu2
    | o => Cycle.stuck o

/-- The loop of `CPU::emulate()` run for at most `fuel` rounds; `none` when
the fuel is used up before the loop is left. -/
def CPU.emulateLoop (signedRegs : Bool) : Nat → StatusCode → CPU → Option Outcome
  | 0, _, _ => none
  | fuel + 1, code, cpu =>
    match cpu.cycle signedRegs code with
    | Cycle.continues code1 cpu1 => CPU.emulateLoop signedRegs fuel code1 cpu1
    | Cycle.breaks code1 cpu1 => some (Outcome.returned code1 cpu1)
    | Cycle.stuck o => some o

/-- The method `CPU::emulate()`: `code` starts as `SUCCESS`. -/
def CPU.emulateAll (signedRegs : Bool) (fuel : Nat) (cpu : CPU) : Option Outcome :=
  cpu.emulateLoop signedRegs fuel StatusCode.SUCCESS

/-! ## Loading an image -/

/-- The loop `for (uint16_t i = start; i < start + size; ++i)` of
`CPU::dumpMemory`, one line of output per round.  The bound `start + size` is
computed in `int` and is not truncated, the counter `i` is a `uint16_t` and
wraps.  `none` when the fuel runs out. -/
def CPU.dumpMemoryLoop (start size : Nat) : Nat → Nat → CPU → Option CPU
  | 0, _, _ => none
  | fuel + 1, i, cpu =>
    if i < start + size then
      let line := bytesOf ("memory[ " ++ toString i ++ " ]" ++ " = " ++
        toString (cpu.m_memory.read i) ++ "\n")
      CPU.dumpMemoryLoop start size fuel ((i + 1) % 65536)
        { cpu with stdout := cpu.stdout ++ line }
    else some cpu

/-- The method `CPU::dumpMemory(start, size)`. -/
def CPU.dumpMemory (fuel : Nat) (cpu : CPU) (start size : Nat) : Option CPU :=
  CPU.dumpMemoryLoop start size fuel start cpu

/-- The first `ifs.read` of `CPU::load`, into the local `origin` (declared
without an initial value, `uninitialised` stands for what it holds).  With two
bytes at hand they form the word, low byte first; with fewer, the bytes that
are there are stored and the stream is at its end. -/
def readOrigin (uninitialised : Nat) : List Nat → Nat
  | b0 :: b1 :: _ => b0 % 256 + 256 * (b1 % 256)
  | [b0] => b0 % 256 + 256 * (uninitialised / 256 % 256)
  | [] => uninitialised % 65536

/-- The loop `while (!ifs.eof())` of `CPU::load` over the bytes that follow the
origin.  A read of two bytes succeeds while two bytes remain and the word is
written at `origin++`; the first read that finds fewer sets both `eofbit` and
`failbit`, so nothing is written and the loop ends.  Returns the memory and
the final value of `origin`. -/
def loadWords (m : Memory) (origin : Nat) : List Nat → Memory × Nat
  | b0 :: b1 :: rest =>
    loadWords (m.write origin (b0 % 256 + 256 * (b1 % 256))) ((origin + 1) % 65536) rest
  | _ => (m, origin)

/-- The method `CPU::load(fileToRun)`.  `fileToRun` is `none` when the file cannot be
opened and otherwise holds its bytes; the result is the returned `bool` and
the state, or `none` when `dumpMemory` uses up the fuel. -/
def CPU.load (fuel : Nat) (fileToRun : Option (List Nat)) (uninitialised : Nat)
    (cpu : CPU) : Option (Bool × CPU) :=
  match fileToRun with
  | none => some (false, cpu)
  | some bytes =>
    let origin := readOrigin uninitialised bytes
    let cpu1 := { cpu with m_pc := origin }
    let memory := (loadWords cpu1.m_memory origin (bytes.drop 2)).1
    match CPU.dumpMemory fuel { cpu1 with m_memory := memory } cpu1.m_pc 5 with
    | none => none
    | some cpu2 => some (true, cpu2)

/-- The bytes of an image file holding the given words, low byte first. -/
def imageBytes : List Nat → List Nat
  | [] => []
  | w :: ws => (w % 256) :: (w / 256 % 256) :: imageBytes ws

/-- A program for the run loop: `JSR +1` at `0x10`, `TRAP x25` at `0x11`,
`JMP R7` at `0x12`, started at `0x10` with empty registers. -/
def jsrThenRet : CPU :=
  CPU.init (fun a => if a = 0x10 then 0x4801 else if a = 0x11 then 0xF025
    else if a = 0x12 then 0xC1C0 else 0) (fun _ => 0) 0x10 []

/-! ## The assembler's reader (reader.cpp, instructions.hpp) -/

/-- The function `SupportedInsturctions::isInstruction`: membership in the set of
supported mnemonics and directives. -/
def isInstruction (maybeInsturction : String) : Bool :=
  ["ADD", "AND", "BR", "JMP", "JSR", "JSRR", "LD", "LDI", "LDR", "LEA", "NOT", "RET", "RTI",
    "ST", "STI", "STR", "TRAP", ".ORIG", ".FILL", ".BLKW", ".STRINGZ", ".END"].contains
    maybeInsturction

/-- White space as `std::ws` and `operator>>` see it. -/
def isSpace (c : Char) : Bool :=
  c = ' ' || c = '\t' || c = '\n' || c = '\r' || c.toNat = 11 || c.toNat = 12

/-- The manipulator `std::ws`: leading white space is dropped. -/
def skipWs (cs : List Char) : List Char :=
  cs.dropWhile isSpace

/-- The extraction `iss >> word` on a string stream holding `cs`: the next
run of characters that are not white space and the rest of the stream, or
`none` when only white space is left (the extraction fails, the target string
keeps its value and the stream stays failed). -/
def extractWord (cs : List Char) : Option (List Char × List Char) :=
  let cs1 := skipWs cs
  if cs1 = [] then none
  else some (cs1.takeWhile (fun c => !isSpace c), cs1.dropWhile (fun c => !isSpace c))

/-- The call `std::getline(iss, part, ',')` on a stream that is not at its end:
the characters up to the next comma, and the rest behind the comma, or `none`
for the rest when the end of the stream was reached first. -/
def getlineComma : List Char → List Char × Option (List Char)
  | [] => ([], none)
  | c :: cs =>
    if c = ',' then ([], some cs)
    else ((c :: (getlineComma cs).1), (getlineComma cs).2)

/-- The operand loop of `Reader::parseInsturction`, at most `fuel` rounds:
each round skips white space and reads up to the next comma; a part with a
`;` that does not start with a quote is cut at the `;` and ends the loop, a
part that starts with a quote is cut at its closing quote and ends the loop,
any other part is kept whole. -/
def operandsLoop : Nat → List Char → List String → List String
  | 0, _, operands => operands
  | fuel + 1, cs, operands =>
    let cs1 := skipWs cs
    if cs1 = [] then operands
    else
      let part := (getlineComma cs1).1
      if part.contains ';' ∧ part.head? ≠ some '"' then
        operands ++ [String.mk (part.takeWhile (fun c => c ≠ ';'))]
      else if part ≠ [] ∧ part.head? = some '"' then
        operands ++ [String.mk ((part.drop 1).takeWhile (fun c => c ≠ '"'))]
      else
        match (getlineComma cs1).2 with
        | none => operands ++ [String.mk part]
        | some rest => operandsLoop fuel rest (operands ++ [String.mk part])

/-- The structure `InstructionToken` returned by `Reader::parseInsturction`. -/
structure InstructionToken where
  label : String
  name : String
  operands : List String
deriving DecidableEq, Repr

/-- The method `Reader::parseInsturction`: the first word is the mnemonic, or the label
when it is not a supported mnemonic, in which case the next word, if there is
one, is the mnemonic; the operands follow, separated by commas. -/
def parseInsturction (insturction : String) : InstructionToken :=
  match extractWord insturction.toList with
  | none => { label := "", name := "", operands := [] }
  | some (first, rest) =>
    if !isInstruction (String.mk first) then
      match extractWord rest with
      | none => { label := String.mk first, name := String.mk first, operands := [] }
      | some (second, rest2) =>
        { label := String.mk first, name := String.mk second,
          operands := operandsLoop (rest2.length + 1) rest2 [] }
    else
      { label := "", name := String.mk first,
        operands := operandsLoop (rest.length + 1) rest [] }

/-- The value of a digit character in bases up to 36. -/
def digitValue (c : Char) : Option Nat :=
  if '0' ≤ c ∧ c ≤ '9' then some (c.toNat - 48)
  else if 'a' ≤ c ∧ c ≤ 'z' then some (c.toNat - 87)
  else if 'A' ≤ c ∧ c ≤ 'Z' then some (c.toNat - 55)
  else none

/-- Whether a character is a digit of the given base. -/
def isDigitIn (base : Nat) (c : Char) : Bool :=
  match digitValue c with
  | some v => decide (v < base)
  | none => false

/-- The library function `std::stoi(number, nullptr, base)`: white space, an optional
sign, for base 16 an optional `0x`, then digits; `none` stands for the
exception thrown when there is no digit or the value does not fit an `int`. -/
def stoi (number : List Char) (base : Nat) : Option Int :=
  let s := skipWs number
  let negative := s.head? = some '-'
  let s1 := if s.head? = some '-' ∨ s.head? = some '+' then s.drop 1 else s
  let s2 :=
    match s1 with
    | '0' :: x :: d :: r =>
      if base = 16 ∧ (x = 'x' ∨ x = 'X') ∧ isDigitIn 16 d then d :: r else s1
    | _ => s1
  let digits := s2.takeWhile (isDigitIn base)
  if digits = [] then none
  else
    let magnitude := digits.foldl (fun acc c => acc * base + (digitValue c).getD 0) 0
    let value : Int := if negative then -(magnitude : Int) else (magnitude : Int)
    if -2147483648 ≤ value ∧ value ≤ 2147483647 then some value else none

/-- The function `to_int` of reader.cpp: base 16 when the text starts with `0x`, base 10
otherwise; the `int` is narrowed to `uint16_t`. -/
def to_int (number : String) : Option Nat :=
  let cs := number.toList
  let parsed :=
    if cs.head? = some '0' ∧ (cs.drop 1).head? = some 'x' then stoi cs 16 else stoi cs 10
  parsed.map (fun v => (v % 65536).toNat)

/-- The objects `Reader::readFile` pushes on its result, one constructor per
class, with the constructor arguments. -/
inductive Instruction where
  | OriginDerective (origin : Nat)
  | FillDerective (value : Nat)
  | BlkwDerective (numberOfMemoryLocations : Nat)
  | StringDerective (str : String)
  | EndDerective
  | AddInstruction (operands : List String)
  | AndInstruction (operands : List String)
  | LoadInstruction (operands : List String)
deriving DecidableEq, Repr

/-- Modelled from the spec: the symbol table (`SymbolTable::the()`, whose
class is missing), a map from label to address, kept as the list of the
entries in the order of the calls of `add`. -/
abbrev SymbolTable := List (String × Nat)

/-- The `if`/`else if` chain of `Reader::readFile` that builds the object for
one statement: `none` when `to_int` throws or `operands[0]` does not exist,
`some none` when the name matches no branch and nothing is pushed. -/
def makeInstruction (name : String) (operands : List String) :
    Option (Option Instruction) :=
  if name = ".ORIG" then
    (operands.head?.bind to_int).map (fun v => some (Instruction.OriginDerective v))
  else if name = ".FILL" then
    (operands.head?.bind to_int).map (fun v => some (Instruction.FillDerective v))
  else if name = ".BLKW" then
    (operands.head?.bind to_int).map (fun v => some (Instruction.BlkwDerective v))
  else if name = ".STRINGZ" then
    operands.head?.map (fun s => some (Instruction.StringDerective s))
  else if name = ".END" then some (some Instruction.EndDerective)
  else if name = "ADD" then some (some (Instruction.AddInstruction operands))
  else if name = "AND" then some (some (Instruction.AndInstruction operands))
  else if name = "LD" then some (some (Instruction.LoadInstruction operands))
  else some none

/-- The loop of `Reader::readFile` over the lines of the file.  `getline`
after `std::ws` never delivers an empty line; comment lines are skipped; for
every other line the label, if any, is added to the symbol table with the
current `offsetFromOrigin`, the object is built and `offsetFromOrigin++` is
executed.  The result is the token list (`none` when an exception ended the
call) and the symbol table. -/
def readLoop : List String → Nat → List Instruction → SymbolTable →
    Option (List Instruction) × SymbolTable
  | [], _, tokens, table => (some tokens, table)
  | line :: rest, offsetFromOrigin, tokens, table =>
    let currentLine := String.mk (skipWs line.toList)
    if currentLine.toList ≠ [] ∧ currentLine.toList.head? ≠ some ';' then
      let token := parseInsturction currentLine
      let table1 := if token.label ≠ "" then table ++ [(token.label, offsetFromOrigin)] else table
      match makeInstruction token.name token.operands with
      | none => (none, table1)
      | some pushed =>
        readLoop rest ((offsetFromOrigin + 1) % 65536) (tokens ++ pushed.toList) table1
    else readLoop rest offsetFromOrigin tokens table

/-- The method `Reader::readFile` on a file with the given lines, starting from the
given symbol table: `offsetFromOrigin` starts at 0. -/
def readFile (lines : List String) (table : SymbolTable) :
    Option (List Instruction) × SymbolTable :=
  readLoop lines 0 [] table

/-- The number of words a statement emits according to the specification:
`.BLKW n` emits `n` words, `.STRINGZ s` one word per character and a final
zero word, `.ORIG` and `.END` no word, every other statement one word. -/
def specWordsEmitted : Instruction → Nat
  | Instruction.OriginDerective _ => 0
  | Instruction.EndDerective => 0
  | Instruction.BlkwDerective n => n
  | Instruction.StringDerective s => s.length + 1
  | _ => 1

/-! ## Bit-field arithmetic -/

/-- A field read by `retrieveBits` is a quotient followed by a remainder. -/
theorem retrieveBits_eq_div_mod (x p s : Nat) (hs : s ≤ 16) :
    retrieveBits x p s = x / 2 ^ (p + 1 - s) % 2 ^ s := by
  unfold retrieveBits
  have h1 : (1 <<< s - 1) % 65536 = 2 ^ s - 1 := by
    rw [Nat.one_shiftLeft]
    have : 2 ^ s ≤ 2 ^ 16 := Nat.pow_le_pow_right (by decide) hs
    have : 0 < 2 ^ s := Nat.two_pow_pos s
    apply Nat.mod_eq_of_lt
    omega
  simp only [h1, Nat.shiftRight_eq_div_pow, Nat.and_pow_two_sub_one_eq_mod]

/-- On a field of `w` bits `signExtend` adds `65536 - 2 ^ w` exactly when the
top bit of the field is set. -/
theorem signExtend_eq (x w : Nat) (hw : 1 ≤ w) (hw2 : w ≤ 16) (hx : x < 2 ^ w) :
    signExtend x w = if 2 ^ (w - 1) ≤ x then x + (65536 - 2 ^ w) else x := by
  have hP : 2 ^ w = 2 * 2 ^ (w - 1) := by
    conv_lhs => rw [show w = (w - 1) + 1 by omega]
    rw [Nat.pow_succ]; omega
  have hQ : 0 < 2 ^ (w - 1) := Nat.two_pow_pos _
  have hle : 2 ^ w ≤ 2 ^ 16 := Nat.pow_le_pow_right (by decide) hw2
  have hbit : (x >>> (w - 1)) &&& 0x1 = if 2 ^ (w - 1) ≤ x then 1 else 0 := by
    rw [Nat.and_one_is_mod, Nat.shiftRight_eq_div_pow]
    split
    · have : x / 2 ^ (w - 1) = 1 := by
        apply Nat.div_eq_of_lt_le <;> omega
      omega
    · have : x / 2 ^ (w - 1) = 0 := Nat.div_eq_of_lt (by omega)
      omega
  unfold signExtend
  rw [hbit]
  by_cases h : 2 ^ (w - 1) ≤ x
  · simp only [h, if_true]
    have hor : x ||| (0xFFFF <<< w) = 2 ^ w * 0xFFFF + x := by
      rw [Nat.shiftLeft_eq, Nat.mul_comm 0xFFFF, Nat.lor_comm]
      exact (Nat.mul_add_lt_is_or hx _).symm
    rw [hor]
    simp only [ne_eq, one_ne_zero, not_false_eq_true, if_true]
    omega
  · simp [h]

/-- The opcode is the quotient by 4096, reduced to four bits. -/
theorem getOpCode_eq (w : Nat) : getOpCode w = w / 4096 % 16 := by
  unfold getOpCode
  rw [retrieveBits_eq_div_mod w 15 4 (by decide)]
  norm_num

/-- A single request bit `(w >> k) & 1` is the bit read by `Nat.testBit`. -/
theorem shift_and_one_ne_zero (w k : Nat) :
    ((w >>> k) &&& 0x1 ≠ 0) ↔ w.testBit k = true := by
  rw [Nat.and_one_is_mod, Nat.shiftRight_eq_div_pow, Nat.testBit_to_div_mod]
  simp only [decide_eq_true_eq]
  omega

/-! ## The string loop of PUTS and PUTSP -/

/-- The string loop runs out of fuel exactly when the `fuel` words from the
string pointer on are all different from zero. -/
theorem collectString_eq_none (m : Memory) :
    ∀ (fuel sp : Nat) (out : List Nat),
      collectString m fuel sp out = none ↔ ∀ k, k < fuel → m ((sp + k) % 65536) ≠ 0 := by
  intro fuel
  induction fuel with
  | zero =>
    intro sp out
    simp [collectString]
  | succ n ih =>
    intro sp out
    by_cases h0 : m.read sp ≠ 0
    · rw [collectString, if_pos h0, ih]
      constructor
      · intro h k hk
        cases k with
        | zero => simpa [Memory.read] using h0
        | succ j =>
          have := h j (by omega)
          rwa [show ((sp + 1) % 65536 + j) % 65536 = (sp + (j + 1)) % 65536 by omega] at this
      · intro h k hk
        have := h (k + 1) (by omega)
        rwa [show ((sp + 1) % 65536 + k) % 65536 = (sp + (k + 1)) % 65536 by omega]
    · rw [collectString, if_neg h0]
      constructor
      · intro h; exact absurd h (by simp)
      · intro h
        exact absurd (by simpa [Memory.read] using h 0 (by omega)) h0

/-- The bound used in `CPU.emulateTrap` loses nothing: a string loop that has
not ended after 65536 rounds does not end with any amount of fuel. -/
theorem collectString_diverges (m : Memory) (sp : Nat) (out : List Nat)
    (h : collectString m 65536 sp out = none) (fuel : Nat) (out2 : List Nat) :
    collectString m fuel sp out2 = none := by
  rw [collectString_eq_none] at h ⊢
  intro k _
  have := h (((sp + k) % 65536 + 65536 - sp % 65536) % 65536) (Nat.mod_lt _ (by decide))
  rwa [show (sp + ((sp + k) % 65536 + 65536 - sp % 65536) % 65536) % 65536 = (sp + k) % 65536
    by omega] at this

/-! ## C1 – C3: ADD and the condition codes -/

/-- C1 (failing input): `ADD R1,R2,#-1` (word `0x12BF`) executed with `R2 = 0`
returns with `R1 = 31`, the five immediate bits read as an unsigned number,
where the sign-extended immediate would give `0xFFFF`. -/
theorem C1_add_immediate_is_not_sign_extended (signedRegs : Bool) :
    ∃ s, (CPU.init (fun _ => 0) (fun _ => 0) 0x3000 []).emulate signedRegs 0x12BF
        = Outcome.returned StatusCode.SUCCESS s ∧
      s.m_registers 1 = 31 ∧ s.m_registers 1 ≠ 0xFFFF := by
  cases signedRegs <;> exact ⟨_, rfl, by decide, by decide⟩

/-- C2 (failing input): `ADD R1,R2,R3` (word `0x1283`) executed with `R2 = 0`,
`R3 = 5` and all flags clear leaves `R1 = 5`, a positive value, and sets the
flag `Z` and not `P`: the flags follow the source register `R2`. -/
theorem C2_add_sets_codes_from_source_register (signedRegs : Bool) :
    ∃ s, (CPU.init (fun _ => 0) (fun r => if r = 3 then 5 else 0) 0x3000 []).emulate
          signedRegs 0x1283 = Outcome.returned StatusCode.SUCCESS s ∧
      s.m_registers 1 = 5 ∧
      s.m_conditionalCodes = { N := false, Z := true, P := false } := by
  cases signedRegs <;> exact ⟨_, rfl, by decide, by decide⟩

/-- C3 (failing input): from any initial state, `AND R0,R0,#0` (word `0x5020`)
followed by `ADD R0,R0,#1` (word `0x1021`) leaves both `Z` and `P` true:
`setConditionalCodes` never clears a flag. -/
theorem C3_two_flags_after_two_instructions (signedRegs : Bool) (memory : Memory)
    (registers : Nat → Nat) (pc : Nat) (input : List Nat) :
    ∃ s1 s2, (CPU.init memory registers pc input).emulate signedRegs 0x5020
        = Outcome.returned StatusCode.SUCCESS s1 ∧
      s1.emulate signedRegs 0x1021 = Outcome.returned StatusCode.SUCCESS s2 ∧
      s2.m_conditionalCodes.Z = true ∧ s2.m_conditionalCodes.P = true := by
  let c0 := CPU.init memory registers pc input
  let c1 := (c0.setRegister 0 (c0.m_registers 0 &&& 0)).setConditionalCodes signedRegs 0
  let c2 := (c1.setRegister 0 (c1.m_registers 0 + 1)).setConditionalCodes signedRegs 0
  have h1 : c1.m_registers 0 = 0 ∧ c1.m_conditionalCodes.Z = true := by
    cases signedRegs <;>
      simp [c1, c0, CPU.init, CPU.setConditionalCodes, CPU.setRegister, isNegative]
  refine ⟨c1, c2, rfl, rfl, ?_, ?_⟩ <;>
    cases signedRegs <;>
    simp [c2, CPU.setConditionalCodes, CPU.setRegister, isNegative, h1.1, h1.2]

/-! ## C4: BR -/

/-- The nine-bit offset of a BR word, sign-extended and added to the program
counter modulo 65536, is the counter moved by the two's-complement value of
the field. -/
theorem br_target (w pc : Nat) :
    (pc + signExtend (retrieveBits w 8 9) 9) % 65536 =
      (((pc : Int) + (if w % 512 < 256 then (w % 512 : Int) else (w % 512 : Int) - 512))
        % 65536).toNat := by
  have hf : retrieveBits w 8 9 = w % 512 := by
    rw [retrieveBits_eq_div_mod w 8 9 (by decide)]
    norm_num
  have hlt : w % 512 < 2 ^ 9 := by
    have : w % 512 < 512 := Nat.mod_lt _ (by decide)
    norm_num
    exact this
  rw [hf, signExtend_eq (w % 512) 9 (by decide) (by decide) hlt]
  norm_num
  split <;> split <;> omega

/-- A request bit that is not set reads as zero. -/
theorem shift_and_one_eq_zero (w k : Nat) :
    ((w >>> k) &&& 0x1 = 0) ↔ w.testBit k = false := by
  have h := shift_and_one_ne_zero w k
  constructor
  · intro h0
    cases hb : w.testBit k with
    | false => rfl
    | true => exact absurd h0 (h.mpr hb)
  · intro hb
    by_contra hne
    have := h.mp hne
    rw [hb] at this
    exact Bool.noConfusion this

/-- C4: on a BR word `CPU::emulate(word)` returns `SUCCESS` and changes
nothing but the program counter, which becomes `(PC + signExtend(offset9))
mod 65536` when a requested flag is set or no flag is requested, and stays
as it is otherwise; with the three request bits clear the branch is taken
whatever the flags are. -/
theorem C4_br_branches_iff_requested (signedRegs : Bool) (w : Nat) (cpu : CPU)
    (hop : getOpCode w = opBR) :
    (cpu.emulate signedRegs w = Outcome.returned StatusCode.SUCCESS
      { cpu with m_pc :=
          if (w.testBit 11 && cpu.m_conditionalCodes.N) ||
              (w.testBit 10 && cpu.m_conditionalCodes.Z) ||
              (w.testBit 9 && cpu.m_conditionalCodes.P) ||
              (!w.testBit 11 && !w.testBit 10 && !w.testBit 9) then
            (((cpu.m_pc : Int) +
              (if w % 512 < 256 then (w % 512 : Int) else (w % 512 : Int) - 512)) % 65536).toNat
          else cpu.m_pc }) ∧
    (w.testBit 11 = false → w.testBit 10 = false → w.testBit 9 = false →
      cpu.emulate signedRegs w = Outcome.returned StatusCode.SUCCESS
        { cpu with m_pc := (((cpu.m_pc : Int) +
            (if w % 512 < 256 then (w % 512 : Int) else (w % 512 : Int) - 512)) % 65536).toNat }) := by
  have key : cpu.emulate signedRegs w = Outcome.returned StatusCode.SUCCESS
      { cpu with m_pc :=
          if (w.testBit 11 && cpu.m_conditionalCodes.N) ||
              (w.testBit 10 && cpu.m_conditionalCodes.Z) ||
              (w.testBit 9 && cpu.m_conditionalCodes.P) ||
              (!w.testBit 11 && !w.testBit 10 && !w.testBit 9) then
            (((cpu.m_pc : Int) +
              (if w % 512 < 256 then (w % 512 : Int) else (w % 512 : Int) - 512)) % 65536).toNat
          else cpu.m_pc } := by
    rw [← br_target]
    simp only [CPU.emulate, hop, opBR, opADD, opAND, success, shift_and_one_ne_zero,
      shift_and_one_eq_zero]
    cases h11 : w.testBit 11 <;> cases h10 : w.testBit 10 <;> cases h9 : w.testBit 9 <;>
      cases hN : cpu.m_conditionalCodes.N <;> cases hZ : cpu.m_conditionalCodes.Z <;>
      cases hP : cpu.m_conditionalCodes.P <;> simp
  refine ⟨key, ?_⟩
  intro h11 h10 h9
  rw [key]
  simp [h11, h10, h9]

/-- C4 at the word `0x01FF` (no request bit, offset `-1`) from `PC = 0x3000`: the
branch is taken and the counter moves back by one. -/
theorem C4_br_branches_iff_requested_witness :
    getOpCode 0x01FF = opBR ∧
    (CPU.init (fun _ => 0) (fun _ => 0) 0x3000 []).emulate false 0x01FF =
      Outcome.returned StatusCode.SUCCESS
        { CPU.init (fun _ => 0) (fun _ => 0) 0x3000 [] with m_pc := 0x2FFF } :=
  ⟨by decide,
   ((C4_br_branches_iff_requested false 0x01FF (CPU.init (fun _ => 0) (fun _ => 0) 0x3000 [])
      (by decide)).2 (by decide) (by decide) (by decide)).trans (by rfl)⟩

/-! ## C5 – C8: the run loop, JMP, JSR, HALT and the reserved opcode -/

/-- C5 (counterexample): in the program `jsrThenRet` the `JSR` stores `0x11`
in `R7`; when the loop then fetches `JMP R7` it returns `SUCCESS` with
`PC = 0x13`: control is not transferred to the address in `R7` and the `HALT`
stored there is never executed. -/
theorem C5_jmp_r7_leaves_the_loop :
    (∃ s, jsrThenRet.emulateAll false 2 = some (Outcome.returned StatusCode.SUCCESS s) ∧
      s.m_registers R7 = 0x11 ∧ s.m_pc = 0x13 ∧ s.m_pc ≠ s.m_registers R7) ∧
    (∃ s, jsrThenRet.emulateAll true 2 = some (Outcome.returned StatusCode.SUCCESS s) ∧
      s.m_registers R7 = 0x11 ∧ s.m_pc = 0x13 ∧ s.m_pc ≠ s.m_registers R7) :=
  ⟨⟨_, rfl, by decide, by decide, by decide⟩, ⟨_, rfl, by decide, by decide, by decide⟩⟩

/-- On a JMP word `CPU::emulate(word)` sets the program counter to the value
of the base register and changes nothing else. -/
theorem emulate_jmp (signedRegs : Bool) (w : Nat) (cpu : CPU)
    (hop : getOpCode w = opJMP_RET) :
    cpu.emulate signedRegs w = Outcome.returned StatusCode.SUCCESS
      { cpu with m_pc := cpu.m_registers (getSourceBaseRegisterNumber w) } := by
  simp [CPU.emulate, hop, opJMP_RET, opADD, opAND, opBR, success]

/-- C5 (amended): when the run loop fetches a JMP word at `PC = a`, then for a
base register other than `R7` the round sets `PC` to the value of that
register and the loop goes on from there, and for `R7` the loop is left
without executing the word: it returns the current status code with
`PC = a + 1` and everything else as it was. -/
theorem C5_jmp_in_run_loop (signedRegs : Bool) (code : StatusCode) (cpu : CPU)
    (hop : getOpCode (cpu.m_memory.read cpu.m_pc) = opJMP_RET) :
    (getSourceBaseRegisterNumber (cpu.m_memory.read cpu.m_pc) ≠ R7 →
      cpu.cycle signedRegs code = Cycle.continues StatusCode.SUCCESS
        { cpu with m_pc :=
            cpu.m_registers (getSourceBaseRegisterNumber (cpu.m_memory.read cpu.m_pc)) } ∧
      ∀ fuel, cpu.emulateLoop signedRegs (fuel + 1) code =
        CPU.emulateLoop signedRegs fuel StatusCode.SUCCESS
          { cpu with m_pc :=
              cpu.m_registers (getSourceBaseRegisterNumber (cpu.m_memory.read cpu.m_pc)) }) ∧
    (getSourceBaseRegisterNumber (cpu.m_memory.read cpu.m_pc) = R7 →
      cpu.cycle signedRegs code =
        Cycle.breaks code { cpu with m_pc := (cpu.m_pc + 1) % 65536 } ∧
      ∀ fuel, cpu.emulateLoop signedRegs (fuel + 1) code =
        some (Outcome.returned code { cpu with m_pc := (cpu.m_pc + 1) % 65536 })) := by
  constructor
  · intro hb
    have hc : cpu.cycle signedRegs code = Cycle.continues StatusCode.SUCCESS
        { cpu with m_pc :=
            cpu.m_registers (getSourceBaseRegisterNumber (cpu.m_memory.read cpu.m_pc)) } := by
      simp [CPU.cycle, hop, hb, emulate_jmp]
    refine ⟨hc, fun fuel => ?_⟩
    simp [CPU.emulateLoop, hc]
  · intro hb
    have hc : cpu.cycle signedRegs code =
        Cycle.breaks code { cpu with m_pc := (cpu.m_pc + 1) % 65536 } := by
      simp [CPU.cycle, hop, hb]
    refine ⟨hc, fun fuel => ?_⟩
    simp [CPU.emulateLoop, hc]

/-- C5 (amended) at `JMP R2` (word `0xC080`) stored at `0x3000` with
`R2 = 0x40`: the round continues at `0x40`. -/
theorem C5_jmp_in_run_loop_witness :
    getOpCode ((CPU.init (fun a => if a = 0x3000 then 0xC080 else 0)
        (fun r => if r = 2 then 0x40 else 0) 0x3000 []).m_memory.read 0x3000) = opJMP_RET ∧
    (CPU.init (fun a => if a = 0x3000 then 0xC080 else 0)
        (fun r => if r = 2 then 0x40 else 0) 0x3000 []).cycle false StatusCode.SUCCESS =
      Cycle.continues StatusCode.SUCCESS
        { CPU.init (fun a => if a = 0x3000 then 0xC080 else 0)
            (fun r => if r = 2 then 0x40 else 0) 0x3000 [] with m_pc := 0x40 } :=
  ⟨by decide,
   (((C5_jmp_in_run_loop false StatusCode.SUCCESS
      (CPU.init (fun a => if a = 0x3000 then 0xC080 else 0)
        (fun r => if r = 2 then 0x40 else 0) 0x3000 []) (by decide)).1 (by decide)).1).trans
     (by rfl)⟩

/-- On a JSR or JSRR word `CPU::emulate(word)` first stores the program
counter in `R7` and then sets the counter, from the offset field or from the
base register. -/
theorem emulate_jsr (signedRegs : Bool) (w : Nat) (cpu : CPU)
    (hop : getOpCode w = opJSR_JSRR) :
    cpu.emulate signedRegs w = Outcome.returned StatusCode.SUCCESS
      { cpu.setRegister R7 cpu.m_pc with m_pc :=
          if (w >>> 11) &&& 0x1 ≠ 0 then (cpu.m_pc + retrieveBits w 10 11) % 65536
          else (cpu.setRegister R7 cpu.m_pc).m_registers (getSourceBaseRegisterNumber w) } := by
  by_cases hj : w >>> 11 % 2 = 1 <;>
    simp [CPU.emulate, hop, opJSR_JSRR, opJMP_RET, opADD, opAND, opBR, success, hj,
      CPU.setRegister]

/-- One round of the run loop on a JSR or JSRR word at `PC = a` goes on with
`SUCCESS`, leaves in `R7` the low byte of `(a + 1) mod 65536` and leaves the
other registers, the memory and the condition codes as they were. -/
theorem jsr_round_links_low_byte (signedRegs : Bool) (code : StatusCode) (cpu : CPU)
    (hop : getOpCode (cpu.m_memory.read cpu.m_pc) = opJSR_JSRR) :
    ∃ s, cpu.cycle signedRegs code = Cycle.continues StatusCode.SUCCESS s ∧
      s.m_registers R7 = (cpu.m_pc + 1) % 65536 % 256 ∧
      (∀ r, r ≠ R7 → s.m_registers r = cpu.m_registers r) ∧
      s.m_memory = cpu.m_memory ∧
      s.m_conditionalCodes = cpu.m_conditionalCodes := by
  have hne : ¬ (getOpCode (cpu.m_memory.read cpu.m_pc) = opJMP_RET ∧
      getSourceBaseRegisterNumber (cpu.m_memory.read cpu.m_pc) = R7) := by
    simp [hop, opJSR_JSRR, opJMP_RET]
  unfold CPU.cycle
  simp only [if_neg hne, emulate_jsr _ _ _ hop]
  refine ⟨_, rfl, ?_, ?_, rfl, rfl⟩
  · simp [CPU.setRegister]
  · intro r hr
    simp [CPU.setRegister, hr]

/-- C6 (failing input): with `JSR +1` (word `0x4801`) stored at `0x3000` and
`PC = 0x3000`, one round of the run loop leaves `R7 = 0x01`, the low byte of
the incremented counter `0x3001`: the assignment `m_registers[R7] = m_pc`
narrows the 16-bit counter to the `uint8_t` element of `m_registers`. -/
theorem C6_jsr_link_keeps_low_byte (signedRegs : Bool) :
    ∃ s, (CPU.init (fun a => if a = 0x3000 then 0x4801 else 0) (fun _ => 0) 0x3000 []).cycle
          signedRegs StatusCode.SUCCESS = Cycle.continues StatusCode.SUCCESS s ∧
      s.m_registers R7 = 0x01 ∧ (0x3000 + 1) % 65536 = 0x3001 ∧
      s.m_registers R7 ≠ (0x3000 + 1) % 65536 := by
  cases signedRegs <;> exact ⟨_, rfl, by decide, by decide, by decide⟩

/-- C7: on a TRAP word with vector `0x25` `CPU::emulate(word)` returns
`HALTED` with registers, memory, condition codes and `PC` as they were (the
text `HALT` is written to the output); and when that word is the one at `PC`,
the run loop returns `HALTED` at the end of that very round, with the state
the HALT step left. -/
theorem C7_halt_stops_the_loop (signedRegs : Bool) (w : Nat) (cpu : CPU)
    (hop : getOpCode w = opTRAP) (hv : retrieveBits w 7 8 = trapHALT) :
    cpu.emulate signedRegs w = Outcome.returned StatusCode.HALTED
      { cpu with stdout := cpu.stdout ++ bytesOf "HALT\n" } ∧
    (cpu.m_memory.read cpu.m_pc = w → ∀ (fuel : Nat) (code : StatusCode),
      cpu.emulateLoop signedRegs (fuel + 1) code = some (Outcome.returned StatusCode.HALTED
        { cpu with m_pc := (cpu.m_pc + 1) % 65536,
                   stdout := cpu.stdout ++ bytesOf "HALT\n" })) := by
  have he : ∀ c : CPU, c.emulate signedRegs w = Outcome.returned StatusCode.HALTED
      { c with stdout := c.stdout ++ bytesOf "HALT\n" } := by
    intro c
    simp [CPU.emulate, CPU.emulateTrap, hop, hv, opTRAP, opJSR_JSRR, opJMP_RET, opADD, opAND,
      opBR, opLD, opLDI, opLDR, opLEA, opNOT, opRTI, opST, opSTI, opSTR, trapHALT, trapGETC,
      trapT_OUT, trapPUTS, trapT_IN, trapPUTSP]
  refine ⟨he cpu, ?_⟩
  intro hm fuel code
  simp [CPU.emulateLoop, CPU.cycle, hm, hop, opTRAP, opJMP_RET, he]

/-- C7 at the word `0xF025` stored at `0x3000`. -/
theorem C7_halt_stops_the_loop_witness :
    getOpCode 0xF025 = opTRAP ∧ retrieveBits 0xF025 7 8 = trapHALT ∧
    (CPU.init (fun a => if a = 0x3000 then 0xF025 else 0) (fun _ => 0) 0x3000 []).emulateLoop
        false 1 StatusCode.SUCCESS = some (Outcome.returned StatusCode.HALTED
      { CPU.init (fun a => if a = 0x3000 then 0xF025 else 0) (fun _ => 0) 0x3000 [] with
        m_pc := 0x3001, stdout := bytesOf "HALT\n" }) :=
  ⟨by decide, by decide,
   ((C7_halt_stops_the_loop false 0xF025
      (CPU.init (fun a => if a = 0x3000 then 0xF025 else 0) (fun _ => 0) 0x3000 [])
      (by decide) (by decide)).2 (by decide) 0 StatusCode.SUCCESS).trans (by rfl)⟩

/-- C8: on a word whose bits [15:12] are `1101` `CPU::emulate(word)` stops at
the illegal-instruction assertion with the state untouched; it does not
return a status code. -/
theorem C8_reserved_opcode_aborts (signedRegs : Bool) (w : Nat) (cpu : CPU)
    (hop : w / 4096 % 16 = 0b1101) :
    cpu.emulate signedRegs w = Outcome.aborted Abort.illegalInstruction cpu ∧
    ∀ code s, cpu.emulate signedRegs w ≠ Outcome.returned code s := by
  have hg : getOpCode w = 13 := by rw [getOpCode_eq]; exact hop
  have he : cpu.emulate signedRegs w = Outcome.aborted Abort.illegalInstruction cpu := by
    simp [CPU.emulate, hg, opTRAP, opJSR_JSRR, opJMP_RET, opADD, opAND,
      opBR, opLD, opLDI, opLDR, opLEA, opNOT, opRTI, opST, opSTI, opSTR]
  refine ⟨he, ?_⟩
  intro code s h
  rw [he] at h
  exact Outcome.noConfusion h

/-- C8 at the word `0xD123`. -/
theorem C8_reserved_opcode_aborts_witness :
    0xD123 / 4096 % 16 = 0b1101 ∧
    (CPU.init (fun _ => 0) (fun _ => 0) 0x3000 []).emulate true 0xD123 =
      Outcome.aborted Abort.illegalInstruction (CPU.init (fun _ => 0) (fun _ => 0) 0x3000 []) :=
  ⟨by decide,
   (C8_reserved_opcode_aborts true 0xD123 (CPU.init (fun _ => 0) (fun _ => 0) 0x3000 [])
      (by decide)).1⟩

/-! ## C9 – C10: loading an image -/

/-- When `start + size` reaches 65536 the 16-bit counter of `dumpMemory` can
never reach the bound: the loop uses up any amount of fuel. -/
theorem dumpMemoryLoop_never_ends (start size : Nat) (h : 65536 ≤ start + size) :
    ∀ (fuel i : Nat) (cpu : CPU), i < 65536 → CPU.dumpMemoryLoop start size fuel i cpu = none := by
  intro fuel
  induction fuel with
  | zero => intro i cpu _; rfl
  | succ n ih =>
    intro i cpu hi
    have hlt : i < start + size := by omega
    simp only [CPU.dumpMemoryLoop, hlt, if_true]
    exact ih _ _ (Nat.mod_lt _ (by decide))

/-- When `start + size` stays below 65536 the loop of `dumpMemory` ends once
the fuel covers the remaining rounds, and it has changed the output only. -/
theorem dumpMemoryLoop_ends (start size : Nat) (h : start + size ≤ 65535) :
    ∀ (fuel i : Nat) (cpu : CPU), i ≤ start + size → start + size - i < fuel →
      ∃ out, CPU.dumpMemoryLoop start size fuel i cpu = some { cpu with stdout := out } := by
  intro fuel
  induction fuel with
  | zero => intro i cpu _ hf; omega
  | succ n ih =>
    intro i cpu hi hf
    by_cases hlt : i < start + size
    · simp only [CPU.dumpMemoryLoop, hlt, if_true]
      have hmod : (i + 1) % 65536 = i + 1 := Nat.mod_eq_of_lt (by omega)
      rw [hmod]
      obtain ⟨out, hout⟩ := ih (i + 1) _ (by omega) (by omega)
      exact ⟨out, hout⟩
    · simp only [CPU.dumpMemoryLoop, hlt, if_false]
      exact ⟨cpu.stdout, rfl⟩

/-- The two bytes written for a word read back as the word modulo 65536. -/
theorem word_of_bytes (w : Nat) :
    w % 256 % 256 + 256 * (w / 256 % 256 % 256) = w % 65536 := by
  omega

/-- Loading the bytes of the words `ws` at `o`, with `o + length ws ≤ 65536`,
puts `ws[i]` at `o + i` and leaves every other address alone. -/
theorem loadWords_imageBytes : ∀ (ws : List Nat) (m : Memory) (o : Nat),
    o < 65536 → o + ws.length ≤ 65536 →
    (∀ i (hi : i < ws.length), (loadWords m o (imageBytes ws)).1 (o + i) = ws[i] % 65536) ∧
    (∀ a, (a < o ∨ o + ws.length ≤ a) → (loadWords m o (imageBytes ws)).1 a = m a)
  | [], m, o, _, _ => by
    constructor
    · intro i hi; simp at hi
    · intro a _; rfl
  | [w], m, o, ho, _ => by
    have hm : o % 65536 = o := Nat.mod_eq_of_lt ho
    constructor
    · intro i hi
      have hi0 : i = 0 := by simpa using hi
      subst hi0
      simp only [imageBytes, loadWords, Memory.write, hm, Nat.add_zero, if_true,
        List.getElem_cons_zero]
      omega
    · intro a ha
      have hne : a ≠ o := by
        simp only [List.length_singleton] at ha
        omega
      simp [imageBytes, loadWords, Memory.write, hm, hne]
  | w :: w2 :: rest, m, o, ho, hlen => by
    have hm : o % 65536 = o := Nat.mod_eq_of_lt ho
    have hlen2 : o + 1 + (w2 :: rest).length ≤ 65536 := by
      simp only [List.length_cons] at hlen ⊢
      omega
    have ho1 : o + 1 < 65536 := by
      simp only [List.length_cons] at hlen
      omega
    have hm1 : (o + 1) % 65536 = o + 1 := Nat.mod_eq_of_lt ho1
    have ih := loadWords_imageBytes (w2 :: rest)
      (m.write o (w % 256 % 256 + 256 * (w / 256 % 256 % 256))) (o + 1) ho1 hlen2
    have hstep : loadWords m o (imageBytes (w :: w2 :: rest)) =
        loadWords (m.write o (w % 256 % 256 + 256 * (w / 256 % 256 % 256))) (o + 1)
          (imageBytes (w2 :: rest)) := by
      simp only [imageBytes, loadWords, hm1]
    rw [hstep]
    constructor
    · intro i hi
      cases i with
      | zero =>
        have h0 := ih.2 o (Or.inl (by omega))
        simp only [Nat.add_zero, h0, Memory.write, hm, if_true, List.getElem_cons_zero]
        omega
      | succ j =>
        have hj : j < (w2 :: rest).length := by
          simp only [List.length_cons] at hi ⊢
          omega
        have := ih.1 j hj
        rw [show o + (j + 1) = o + 1 + j by omega, this]
        simp
    · intro a ha
      have ha2 : a < o + 1 ∨ o + 1 + (w2 :: rest).length ≤ a := by
        simp only [List.length_cons] at ha ⊢
        omega
      have hne : a ≠ o := by
        simp only [List.length_cons] at ha
        omega
      rw [ih.2 a ha2]
      simp [Memory.write, hm, hne]

/-- For an origin up to 65530 `CPU::load` does what an image asks for: it
returns true with `PC` at the origin, the data words at consecutive addresses
from the origin, and every other address, the registers and the flags as they
were. -/
theorem load_image_low_origin (cpu : CPU) (o : Nat) (ws : List Nat) (uninitialised fuel : Nat)
    (ho : o + 5 ≤ 65535) (hlen : o + ws.length ≤ 65536) (hf : 6 ≤ fuel) :
    ∃ s, cpu.load fuel (some (imageBytes (o :: ws))) uninitialised = some (true, s) ∧
      s.m_pc = o ∧
      (∀ i (hi : i < ws.length), s.m_memory (o + i) = ws[i] % 65536) ∧
      (∀ a, (a < o ∨ o + ws.length ≤ a) → s.m_memory a = cpu.m_memory a) ∧
      s.m_registers = cpu.m_registers ∧ s.m_conditionalCodes = cpu.m_conditionalCodes := by
  have hor : readOrigin uninitialised (imageBytes (o :: ws)) = o := by
    simp only [imageBytes, readOrigin]
    omega
  have hdrop : (imageBytes (o :: ws)).drop 2 = imageBytes ws := rfl
  obtain ⟨out, hout⟩ := dumpMemoryLoop_ends o 5 ho fuel o
    { cpu with m_pc := o, m_memory := (loadWords cpu.m_memory o (imageBytes ws)).1 }
    (by omega) (by omega)
  have hl := loadWords_imageBytes ws cpu.m_memory o (by omega) hlen
  have hload : cpu.load fuel (some (imageBytes (o :: ws))) uninitialised = some (true,
      { cpu with m_pc := o, m_memory := (loadWords cpu.m_memory o (imageBytes ws)).1,
                 stdout := out }) := by
    simp only [CPU.load, hor, hdrop, CPU.dumpMemory, hout]
  exact ⟨_, hload, rfl, hl.1, hl.2, rfl, rfl⟩

/-- C9 (failing input): on the image with origin `0xFFFF` and the single data
word `7`, within the range `o + length ws ≤ 65536`, `CPU::load` never
returns: `dumpMemory(m_pc, 5)` compares its 16-bit counter with the bound
`0xFFFF + 5`, which it cannot reach, so no amount of fuel yields a result. -/
theorem C9_load_at_top_origin_never_returns (fuel uninitialised : Nat) (cpu : CPU) :
    0xFFFF + [7].length ≤ 65536 ∧
    cpu.load fuel (some (imageBytes [0xFFFF, 7])) uninitialised = none := by
  refine ⟨by decide, ?_⟩
  have hor : readOrigin uninitialised (imageBytes [0xFFFF, 7]) = 0xFFFF := rfl
  simp only [CPU.load, hor, CPU.dumpMemory]
  rw [dumpMemoryLoop_never_ends 0xFFFF 5 (by decide) fuel 0xFFFF _ (by decide)]

/-- A trailing single byte after an even number of bytes is not loaded. -/
theorem loadWords_append_byte : ∀ (bs : List Nat) (m : Memory) (o b : Nat),
    bs.length % 2 = 0 → loadWords m o (bs ++ [b]) = loadWords m o bs
  | [], _, _, _, _ => rfl
  | [_], _, _, _, h => by simp at h
  | x :: y :: rest, m, o, b, h => by
    simp only [List.cons_append, loadWords]
    apply loadWords_append_byte rest
    simp only [List.length_cons] at h
    omega

/-- C10 (counterexample): the five bytes `00 30 34 12 56` (origin `0x3000`,
the word `0x1234`, then half a word) are loaded with result `true`; the word
is stored at `0x3000` and nothing is stored at `0x3001`. -/
theorem C10_odd_length_load_reports_success :
    [0x00, 0x30, 0x34, 0x12, 0x56].length % 2 = 1 ∧
    ∃ s, (CPU.init (fun _ => 0) (fun _ => 0) 0 []).load 6
        (some [0x00, 0x30, 0x34, 0x12, 0x56]) 0 = some (true, s) ∧
      s.m_pc = 0x3000 ∧ s.m_memory 0x3000 = 0x1234 ∧ s.m_memory 0x3001 = 0 :=
  ⟨by decide, _, rfl, by decide, by decide, by decide⟩

/-- The origin read by `CPU::load` is a 16-bit word. -/
theorem readOrigin_lt (uninitialised : Nat) (bs : List Nat) :
    readOrigin uninitialised bs < 65536 := by
  match bs with
  | [] => exact Nat.mod_lt _ (by decide)
  | [b0] => simp only [readOrigin]; omega
  | b0 :: b1 :: rest => simp only [readOrigin]; omega

/-- On a file that could be opened `CPU::load` never returns false. -/
theorem load_never_returns_false (cpu : CPU) (bs : List Nat) (uninitialised fuel : Nat)
    (s : CPU) : cpu.load fuel (some bs) uninitialised ≠ some (false, s) := by
  intro h
  simp only [CPU.load] at h
  split at h
  · exact Option.noConfusion h
  · simp at h

/-- C10 (amended): on a byte stream of odd length `CPU::load` never returns
false; when the origin it has read is at most 65530 it returns true (six
rounds of fuel are enough) and for a larger origin it never returns; and when
the stream has at least three bytes the result is the one for the stream
without its last byte: the complete words are loaded and the trailing byte is
dropped. -/
theorem C10_odd_length_load_drops_trailing_byte (cpu : CPU) (bs : List Nat)
    (uninitialised fuel : Nat) (hodd : bs.length % 2 = 1) :
    (∀ s, cpu.load fuel (some bs) uninitialised ≠ some (false, s)) ∧
    (readOrigin uninitialised bs ≤ 65530 → 6 ≤ fuel →
      ∃ s, cpu.load fuel (some bs) uninitialised = some (true, s)) ∧
    (65531 ≤ readOrigin uninitialised bs → cpu.load fuel (some bs) uninitialised = none) ∧
    (3 ≤ bs.length →
      cpu.load fuel (some bs) uninitialised = cpu.load fuel (some bs.dropLast) uninitialised) := by
  refine ⟨fun s => load_never_returns_false cpu bs uninitialised fuel s, ?_, ?_, ?_⟩
  · intro ho hf
    obtain ⟨out, hout⟩ := dumpMemoryLoop_ends (readOrigin uninitialised bs) 5 (by omega) fuel
      (readOrigin uninitialised bs)
      { cpu with m_pc := readOrigin uninitialised bs,
                 m_memory :=
                   (loadWords cpu.m_memory (readOrigin uninitialised bs) (bs.drop 2)).1 }
      (by omega) (by omega)
    refine ⟨{ cpu with m_pc := readOrigin uninitialised bs,
                       m_memory :=
                         (loadWords cpu.m_memory (readOrigin uninitialised bs) (bs.drop 2)).1,
                       stdout := out }, ?_⟩
    simp only [CPU.load, CPU.dumpMemory, hout]
  · intro ho
    simp only [CPU.load, CPU.dumpMemory]
    rw [dumpMemoryLoop_never_ends (readOrigin uninitialised bs) 5 (by omega) fuel
      (readOrigin uninitialised bs) _ (readOrigin_lt uninitialised bs)]
  · intro h3
    match bs, hodd, h3 with
    | b0 :: b1 :: rest, hodd, h3 =>
      have hrest : rest ≠ [] := by
        intro h
        subst h
        simp at h3
      have heven : rest.dropLast.length % 2 = 0 := by
        simp only [List.length_cons, List.length_dropLast] at hodd ⊢
        have : 0 < rest.length := List.length_pos.mpr hrest
        omega
      have hsplit : rest = rest.dropLast ++ [rest.getLast hrest] :=
        (List.dropLast_append_getLast hrest).symm
      have hdl : (b0 :: b1 :: rest).dropLast = b0 :: b1 :: rest.dropLast := by
        cases rest with
        | nil => exact absurd rfl hrest
        | cons r rs => rfl
      have hw : loadWords cpu.m_memory (readOrigin uninitialised (b0 :: b1 :: rest)) rest =
          loadWords cpu.m_memory (readOrigin uninitialised (b0 :: b1 :: rest)) rest.dropLast := by
        conv_lhs => rw [hsplit]
        exact loadWords_append_byte _ _ _ _ heven
      simp only [CPU.load, hdl, readOrigin, List.drop_succ_cons, List.drop_zero]
      simp only [readOrigin] at hw
      rw [hw]

/-- C10 (amended) at the five bytes `00 30 34 12 56`: the result is `true`
and equals the result for the four bytes `00 30 34 12`; at the three bytes
`FF FF 56`, with origin `0xFFFF`, the call does not return. -/
theorem C10_odd_length_load_drops_trailing_byte_witness :
    [0x00, 0x30, 0x34, 0x12, 0x56].length % 2 = 1 ∧
    (∃ s, (CPU.init (fun _ => 0) (fun _ => 0) 0 []).load 6
      (some [0x00, 0x30, 0x34, 0x12, 0x56]) 0 = some (true, s)) ∧
    (CPU.init (fun _ => 0) (fun _ => 0) 0 []).load 6 (some [0x00, 0x30, 0x34, 0x12, 0x56]) 0 =
      (CPU.init (fun _ => 0) (fun _ => 0) 0 []).load 6 (some [0x00, 0x30, 0x34, 0x12]) 0 ∧
    (CPU.init (fun _ => 0) (fun _ => 0) 0 []).load 6 (some [0xFF, 0xFF, 0x56]) 0 = none :=
  ⟨by decide,
   (C10_odd_length_load_drops_trailing_byte (CPU.init (fun _ => 0) (fun _ => 0) 0 [])
      [0x00, 0x30, 0x34, 0x12, 0x56] 0 6 (by decide)).2.1 (by decide) (by decide),
   (C10_odd_length_load_drops_trailing_byte (CPU.init (fun _ => 0) (fun _ => 0) 0 [])
      [0x00, 0x30, 0x34, 0x12, 0x56] 0 6 (by decide)).2.2.2 (by decide),
   (C10_odd_length_load_drops_trailing_byte (CPU.init (fun _ => 0) (fun _ => 0) 0 [])
      [0xFF, 0xFF, 0x56] 0 6 (by decide)).2.2.1 (by decide)⟩

/-! ## C11 – C12: sign extension and field extraction -/

/-- The top bit of a field of `w` bits is set exactly when the field is at
least `2 ^ (w - 1)`. -/
theorem testBit_top (x w : Nat) (hw : 1 ≤ w) (hx : x < 2 ^ w) :
    x.testBit (w - 1) = decide (2 ^ (w - 1) ≤ x) := by
  have hP : 2 ^ w = 2 * 2 ^ (w - 1) := by
    conv_lhs => rw [show w = (w - 1) + 1 by omega]
    rw [Nat.pow_succ]; omega
  have hQ : 0 < 2 ^ (w - 1) := Nat.two_pow_pos _
  rw [Nat.testBit_to_div_mod]
  by_cases h : 2 ^ (w - 1) ≤ x
  · have : x / 2 ^ (w - 1) = 1 := by
      apply Nat.div_eq_of_lt_le <;> omega
    simp [this, h]
  · have : x / 2 ^ (w - 1) = 0 := Nat.div_eq_of_lt (by omega)
    simp [this, h]

/-- C11: for a width `w` from 1 to 15 and a field `x < 2 ^ w`, the word
`signExtend(x, w)` read as a 16-bit two's-complement number is `x` when bit
`w - 1` of `x` is clear and `x - 2 ^ w` when it is set, and its low `w` bits
are `x`; so `signExtend(0b11111, 5) = 0xFFFF` and `signExtend(0b01111, 5) = 15`. -/
theorem C11_signExtend_is_twos_complement (x w : Nat) (hw1 : 1 ≤ w) (hw : w ≤ 15)
    (hx : x < 2 ^ w) :
    (if signExtend x w < 32768 then (signExtend x w : Int) else (signExtend x w : Int) - 65536)
      = (if x.testBit (w - 1) = true then (x : Int) - (2 : Int) ^ w else (x : Int)) ∧
    signExtend x w % 2 ^ w = x ∧
    signExtend x w < 65536 ∧
    signExtend 0b11111 5 = 0xFFFF ∧ signExtend 0b01111 5 = 15 := by
  have hP : 2 ^ w = 2 * 2 ^ (w - 1) := by
    conv_lhs => rw [show w = (w - 1) + 1 by omega]
    rw [Nat.pow_succ]; omega
  have hQ : 0 < 2 ^ (w - 1) := Nat.two_pow_pos _
  have hle : 2 ^ w ≤ 2 ^ 15 := Nat.pow_le_pow_right (by decide) hw
  have h15 : (2 : Nat) ^ 15 = 32768 := by norm_num
  have hsplit : 65536 = 2 ^ w * 2 ^ (16 - w) := by
    rw [← Nat.pow_add, show w + (16 - w) = 16 by omega]
  have hk : 0 < 2 ^ (16 - w) := Nat.two_pow_pos _
  have hcast : ((2 : Int) ^ w) = ((2 ^ w : Nat) : Int) := by push_cast; rfl
  rw [signExtend_eq x w hw1 (by omega) hx, testBit_top x w hw1 hx, hcast]
  refine ⟨?_, ?_, ?_, by decide, by decide⟩
  · by_cases h : 2 ^ (w - 1) ≤ x
    · simp only [h, if_true, decide_True]
      rw [if_neg (by omega)]
      push_cast
      omega
    · simp only [h, if_false, decide_False]
      rw [if_pos (by omega)]
      simp
  · by_cases h : 2 ^ (w - 1) ≤ x
    · simp only [h, if_true]
      have : x + (65536 - 2 ^ w) = x + 2 ^ w * (2 ^ (16 - w) - 1) := by
        rw [Nat.mul_sub, Nat.mul_one, ← hsplit]
      rw [this, Nat.add_mul_mod_self_left]
      exact Nat.mod_eq_of_lt hx
    · simp only [h, if_false]
      exact Nat.mod_eq_of_lt hx
  · split <;> omega

/-- C11 at the field `0b10000` of width 5: the word is `0xFFF0`, which reads
as `-16`. -/
theorem C11_signExtend_is_twos_complement_witness :
    (1 ≤ 5 ∧ 5 ≤ 15 ∧ 0b10000 < 2 ^ 5) ∧
    (if signExtend 0b10000 5 < 32768 then (signExtend 0b10000 5 : Int)
      else (signExtend 0b10000 5 : Int) - 65536)
      = (if (0b10000 : Nat).testBit (5 - 1) = true then ((0b10000 : Nat) : Int) - (2 : Int) ^ 5
          else ((0b10000 : Nat) : Int)) ∧
    signExtend 0b10000 5 = 0xFFF0 :=
  ⟨by decide,
   (C11_signExtend_is_twos_complement 0b10000 5 (by decide) (by decide) (by decide)).1,
   by decide⟩

/-- C12: for a 16-bit word `x`, a position `p ≤ 15` and a width `s` with
`s ≤ p + 1` (the lower bound `1 ≤ s` is not needed), `retrieveBits(x, p, s)` is `floor(x / 2 ^ (p - s + 1)) mod
2 ^ s`, the bits `p - s + 1 .. p` of `x` read as an unsigned number; and
`getOpCode(x)` is `floor(x / 4096)`. -/
theorem C12_retrieveBits_is_bit_field (x p s : Nat) (hx : x < 65536) (hp : p ≤ 15)
    (hs : s ≤ p + 1) :
    retrieveBits x p s = x / 2 ^ (p + 1 - s) % 2 ^ s ∧
    (∀ i, i < s → (retrieveBits x p s).testBit i = x.testBit (p + 1 - s + i)) ∧
    getOpCode x = x / 4096 := by
  have h := retrieveBits_eq_div_mod x p s (by omega)
  refine ⟨h, ?_, ?_⟩
  · intro i hi
    rw [h, Nat.testBit_mod_two_pow, ← Nat.shiftRight_eq_div_pow, Nat.testBit_shiftRight]
    simp [hi]
  · rw [getOpCode_eq]
    omega

/-- C12 at the word `0x12BF`, field `[8:6]`: the value is `2`. -/
theorem C12_retrieveBits_is_bit_field_witness :
    (0x12BF < 65536 ∧ 8 ≤ 15 ∧ 3 ≤ 8 + 1) ∧
    retrieveBits 0x12BF 8 3 = 0x12BF / 2 ^ (8 + 1 - 3) % 2 ^ 3 ∧
    retrieveBits 0x12BF 8 3 = 2 ∧ getOpCode 0x12BF = 0x12BF / 4096 :=
  ⟨by decide,
   (C12_retrieveBits_is_bit_field 0x12BF 8 3 (by decide) (by decide) (by decide)).1,
   by decide,
   (C12_retrieveBits_is_bit_field 0x12BF 8 3 (by decide) (by decide) (by decide)).2.2⟩

/-! ## C13 – C17, C20: loads, ADD in register mode, stores, input traps, JSRR -/

/-- C13 (failing input): `LDR R1,R2,#0` (word `0x6280`) executed with
`R2 = 0x40` and the word `0x12` stored at `0x40` leaves `R1 = 0x40`, the
address, and not the word stored there: the LDR case never reads memory. -/
theorem C13_ldr_does_not_read_memory (signedRegs : Bool) :
    ∃ s, (CPU.init (fun a => if a = 0x40 then 0x12 else 0)
        (fun r => if r = 2 then 0x40 else 0) 0x3001 []).emulate signedRegs 0x6280
        = Outcome.returned StatusCode.SUCCESS s ∧
      s.m_registers 1 = 0x40 ∧ s.m_memory.read 0x40 = 0x12 ∧
      s.m_registers 1 ≠ s.m_memory.read 0x40 := by
  cases signedRegs <;> exact ⟨_, rfl, by decide, by decide, by decide⟩

/-- C14 (failing input): `LD R1,#-1` (word `0x23FF`) executed with the
incremented `PC = 0x3001`, `0x12` stored at `0x3000` and `0x56` stored at
`0x3200`, leaves `R1 = 0x56`: the offset field is added as the unsigned
number 511, where the sign-extended offset `-1` addresses `0x3000`. -/
theorem C14_ld_offset_is_not_sign_extended (signedRegs : Bool) :
    ∃ s, (CPU.init (fun a => if a = 0x3000 then 0x12 else if a = 0x3200 then 0x56 else 0)
        (fun _ => 0) 0x3001 []).emulate signedRegs 0x23FF
        = Outcome.returned StatusCode.SUCCESS s ∧
      s.m_registers 1 = 0x56 ∧ s.m_memory.read 0x3000 = 0x12 ∧
      s.m_registers 1 ≠ s.m_memory.read 0x3000 := by
  cases signedRegs <;> exact ⟨_, rfl, by decide, by decide, by decide⟩

/-- Setting the condition codes changes the flags only. -/
theorem setConditionalCodes_frame (signedRegs : Bool) (cpu : CPU) (r : Nat) :
    (cpu.setConditionalCodes signedRegs r).m_registers = cpu.m_registers ∧
    (cpu.setConditionalCodes signedRegs r).m_memory = cpu.m_memory ∧
    (cpu.setConditionalCodes signedRegs r).m_pc = cpu.m_pc ∧
    (cpu.setConditionalCodes signedRegs r).stdin = cpu.stdin ∧
    (cpu.setConditionalCodes signedRegs r).stdout = cpu.stdout := by
  simp only [CPU.setConditionalCodes]
  split_ifs <;> exact ⟨rfl, rfl, rfl, rfl, rfl⟩

/-- On an ADD word in register mode `CPU::emulate(word)` leaves in `DR` the
low byte of `SR1 + SR2`, computed from the values before the step, and leaves
every other register, the memory and `PC` as they were. -/
theorem add_register_mode_effect (signedRegs : Bool) (w : Nat) (cpu : CPU)
    (hop : getOpCode w = opADD) (hmode : w.testBit 5 = false) :
    ∃ s, cpu.emulate signedRegs w = Outcome.returned StatusCode.SUCCESS s ∧
      s.m_registers (getDestinationRegisterNumber w) =
        (cpu.m_registers (getSourceBaseRegisterNumber w) +
          cpu.m_registers (retrieveBits w 2 3)) % 256 ∧
      (∀ r, r ≠ getDestinationRegisterNumber w → s.m_registers r = cpu.m_registers r) ∧
      s.m_memory = cpu.m_memory ∧ s.m_pc = cpu.m_pc := by
  have hb : ¬ ((w >>> 5) &&& 0x1 ≠ 0) := by
    rw [shift_and_one_ne_zero, hmode]
    simp
  have he : cpu.emulate signedRegs w = Outcome.returned StatusCode.SUCCESS
      ((cpu.setRegister (getDestinationRegisterNumber w)
        (cpu.m_registers (getSourceBaseRegisterNumber w) +
          cpu.m_registers (retrieveBits w 2 3))).setConditionalCodes signedRegs
        (getSourceBaseRegisterNumber w)) := by
    simp only [CPU.emulate, hop, if_true, if_neg hb, success]
  have hf := setConditionalCodes_frame signedRegs
    (cpu.setRegister (getDestinationRegisterNumber w)
      (cpu.m_registers (getSourceBaseRegisterNumber w) + cpu.m_registers (retrieveBits w 2 3)))
    (getSourceBaseRegisterNumber w)
  refine ⟨_, he, ?_, ?_, ?_, ?_⟩
  · rw [hf.1]
    simp [CPU.setRegister]
  · intro r hr
    rw [hf.1]
    simp [CPU.setRegister, hr]
  · rw [hf.2.1]
    rfl
  · rw [hf.2.2.1]
    rfl

/-- C15 (failing input): `ADD R1,R2,R3` (word `0x1283`) executed with
`R2 = 200` and `R3 = 100` leaves `R1 = 44`, the sum modulo 256, where the sum
modulo 65536 is 300: the result is narrowed to the `uint8_t` element of
`m_registers`. -/
theorem C15_add_register_mode_wraps_at_256 (signedRegs : Bool) :
    ∃ s, (CPU.init (fun _ => 0) (fun r => if r = 2 then 200 else if r = 3 then 100 else 0)
        0x3000 []).emulate signedRegs 0x1283 = Outcome.returned StatusCode.SUCCESS s ∧
      s.m_registers 1 = 44 ∧ (200 + 100) % 65536 = 300 ∧
      s.m_registers 1 ≠ (200 + 100) % 65536 := by
  cases signedRegs <;> exact ⟨_, rfl, by decide, by decide, by decide⟩

/-- C16: on an ST, STI or STR word (bits [15:12] equal to `0011`, `1011` or
`0111`) `CPU::emulate(word)` returns `SUCCESS` with the condition codes, the
eight registers and `PC` as they were, and with the memory changed at one
address at most, where the word stored is the value of the register named in
bits [11:9].  The address is `PC + bits [8:0]` for ST, the word stored there
for STI, and the register named in bits [8:6] plus bits [5:0] for STR. -/
theorem C16_store_changes_one_memory_word (signedRegs : Bool) (w : Nat) (cpu : CPU)
    (hop : w / 4096 % 16 = 0b0011 ∨ w / 4096 % 16 = 0b1011 ∨ w / 4096 % 16 = 0b0111)
    (hreg : cpu.m_registers (w / 512 % 8) < 256) :
    ∃ address, address < 65536 ∧
      address =
        (if w / 4096 % 16 = 0b0011 then (cpu.m_pc + w % 512) % 65536
         else if w / 4096 % 16 = 0b1011 then cpu.m_memory ((cpu.m_pc + w % 512) % 65536) % 65536
         else (cpu.m_registers (w / 64 % 8) + w % 64) % 65536) ∧
      cpu.emulate signedRegs w = Outcome.returned StatusCode.SUCCESS
        { cpu with m_memory := fun a =>
            if a = address then cpu.m_registers (w / 512 % 8) else cpu.m_memory a } := by
  have hsr : getDestinationRegisterNumber w = w / 512 % 8 := by
    unfold getDestinationRegisterNumber
    rw [retrieveBits_eq_div_mod w 11 3 (by decide)]
    norm_num
  have hbase : getSourceBaseRegisterNumber w = w / 64 % 8 := by
    unfold getSourceBaseRegisterNumber
    rw [retrieveBits_eq_div_mod w 8 3 (by decide)]
    norm_num
  have h9 : retrieveBits w 8 9 = w % 512 := by
    rw [retrieveBits_eq_div_mod w 8 9 (by decide)]
    norm_num
  have h6 : retrieveBits w 5 6 = w % 64 := by
    rw [retrieveBits_eq_div_mod w 5 6 (by decide)]
    norm_num
  have hv : cpu.m_registers (w / 512 % 8) % 65536 = cpu.m_registers (w / 512 % 8) :=
    Nat.mod_eq_of_lt (by omega)
  rcases hop with h | h | h
  · have hg : getOpCode w = opST := by rw [getOpCode_eq, h]; rfl
    refine ⟨(cpu.m_pc + w % 512) % 65536, Nat.mod_lt _ (by decide), by simp [h], ?_⟩
    simp [CPU.emulate, hg, opST, opSTI, opSTR, opADD, opAND, opBR, opJMP_RET, opJSR_JSRR, opLD,
      opLDI, opLDR, opLEA, opNOT, opRTI, success, hsr, h9]
    funext a
    simp only [Memory.write, hv]
  · have hg : getOpCode w = opSTI := by rw [getOpCode_eq, h]; rfl
    refine ⟨cpu.m_memory ((cpu.m_pc + w % 512) % 65536) % 65536, Nat.mod_lt _ (by decide),
      by simp [h], ?_⟩
    simp [CPU.emulate, hg, opST, opSTI, opSTR, opADD, opAND, opBR, opJMP_RET, opJSR_JSRR, opLD,
      opLDI, opLDR, opLEA, opNOT, opRTI, success, hsr, h9, Memory.read]
    funext a
    simp only [Memory.write, hv]
  · have hg : getOpCode w = opSTR := by rw [getOpCode_eq, h]; rfl
    refine ⟨(cpu.m_registers (w / 64 % 8) + w % 64) % 65536, Nat.mod_lt _ (by decide),
      by simp [h], ?_⟩
    simp [CPU.emulate, hg, opST, opSTI, opSTR, opADD, opAND, opBR, opJMP_RET, opJSR_JSRR, opLD,
      opLDI, opLDR, opLEA, opNOT, opRTI, success, hsr, hbase, h6]
    funext a
    simp only [Memory.write, hv]

/-- C16 at `STR R1,R2,#1` (word `0x7281`) with `R1 = 0x12`, `R2 = 0x40`: the
word `0x12` is stored at `0x41`, nothing else changes. -/
theorem C16_store_changes_one_memory_word_witness :
    ((0x7281 / 4096 % 16 = 0b0011 ∨ 0x7281 / 4096 % 16 = 0b1011 ∨
        0x7281 / 4096 % 16 = 0b0111) ∧
      (CPU.init (fun _ => 0) (fun r => if r = 1 then 0x12 else if r = 2 then 0x40 else 0)
        0x3000 []).m_registers (0x7281 / 512 % 8) < 256) ∧
    (CPU.init (fun _ => 0) (fun r => if r = 1 then 0x12 else if r = 2 then 0x40 else 0)
        0x3000 []).emulate false 0x7281 = Outcome.returned StatusCode.SUCCESS
      { CPU.init (fun _ => 0) (fun r => if r = 1 then 0x12 else if r = 2 then 0x40 else 0)
          0x3000 [] with m_memory := fun a => if a = 0x41 then 0x12 else 0 } := by
  refine ⟨⟨by decide, by decide⟩, ?_⟩
  obtain ⟨address, _, ha, he⟩ := C16_store_changes_one_memory_word false 0x7281
    (CPU.init (fun _ => 0) (fun r => if r = 1 then 0x12 else if r = 2 then 0x40 else 0)
      0x3000 []) (by decide) (by decide)
  rw [he, ha]
  rfl

/-- C17 (failing input): `TRAP x20` (GETC, word `0xF020`) and `TRAP x23`
(IN, word `0xF023`) executed with the character `A` (65) on the input and
`R0 = 0` leave `R0 = 0`: the character is written to memory cell 0, and the
flag set is `Z`, taken from the unchanged register. -/
theorem C17_getc_writes_memory_not_r0 (signedRegs : Bool) :
    (∃ s, (CPU.init (fun _ => 0) (fun _ => 0) 0x3001 [65]).emulate signedRegs 0xF020
        = Outcome.returned StatusCode.SUCCESS s ∧
      s.m_registers R0 = 0 ∧ s.m_memory.read 0 = 65 ∧
      s.m_conditionalCodes = { N := false, Z := true, P := false }) ∧
    (∃ s, (CPU.init (fun _ => 0) (fun _ => 0) 0x3001 [65]).emulate signedRegs 0xF023
        = Outcome.returned StatusCode.SUCCESS s ∧
      s.m_registers R0 = 0 ∧ s.m_memory.read 0 = 65 ∧
      s.m_conditionalCodes = { N := false, Z := true, P := false }) := by
  cases signedRegs <;>
    exact ⟨⟨_, rfl, by decide, by decide, by decide⟩, ⟨_, rfl, by decide, by decide, by decide⟩⟩

/-- On a JSRR word whose base register is `R7`, executed with `PC = a`,
`CPU::emulate(word)` leaves the low byte of `a` in `R7` and in `PC`, whatever
`R7` held before: the link is stored before the base register is read. -/
theorem jsrr_r7_effect (signedRegs : Bool) (w : Nat) (cpu : CPU)
    (hop : getOpCode w = opJSR_JSRR) (hbit : w.testBit 11 = false)
    (hbase : getSourceBaseRegisterNumber w = R7) :
    ∃ s, cpu.emulate signedRegs w = Outcome.returned StatusCode.SUCCESS s ∧
      s.m_registers R7 = cpu.m_pc % 256 ∧ s.m_pc = cpu.m_pc % 256 := by
  have hb : ¬ ((w >>> 11) &&& 0x1 ≠ 0) := by
    rw [shift_and_one_ne_zero, hbit]
    simp
  refine ⟨_, emulate_jsr signedRegs w cpu hop, ?_, ?_⟩
  · simp [CPU.setRegister]
  · simp only [if_neg hb, hbase]
    simp [CPU.setRegister]

/-- C20 (failing input): `JSRR R7` (word `0x41C0`) executed with
`PC = 0x3001` and `R7 = 0x50` leaves `R7 = 0x01` and `PC = 0x01`: the link
stored in the `uint8_t` element is the low byte of the counter, and that byte
is what the jump reads back. -/
theorem C20_jsrr_r7_jumps_to_low_byte (signedRegs : Bool) :
    ∃ s, (CPU.init (fun _ => 0) (fun r => if r = 7 then 0x50 else 0) 0x3001 []).emulate
        signedRegs 0x41C0 = Outcome.returned StatusCode.SUCCESS s ∧
      s.m_registers R7 = 0x01 ∧ s.m_pc = 0x01 ∧
      s.m_registers R7 ≠ 0x3001 ∧ s.m_pc ≠ 0x3001 := by
  cases signedRegs <;> exact ⟨_, rfl, by decide, by decide, by decide, by decide⟩

/-! ## C18 – C19: label addresses and the memory image -/

/-- C18 (failing input): for the unit `.ORIG 0x3000`, `.BLKW 3`, `L .FILL 7`,
`.END` the reader records `L` at 2, where the statements before `L` emit 3
words; for the unit `.ORIG 0x3000`, `L .FILL 7`, `.END` it records `L` at 1,
where no word is emitted before `L`.  The counter is advanced by one for
every statement, `.ORIG` included, whatever the statement emits. -/
theorem C18_label_offsets_count_statements :
    (readFile [".ORIG 0x3000", ".BLKW 3", "L .FILL 7", ".END"] [] =
      (some [Instruction.OriginDerective 0x3000, Instruction.BlkwDerective 3,
        Instruction.FillDerective 7, Instruction.EndDerective], [("L", 2)]) ∧
     ([Instruction.OriginDerective 0x3000, Instruction.BlkwDerective 3].map
        specWordsEmitted).sum = 3) ∧
    (readFile [".ORIG 0x3000", "L .FILL 7", ".END"] [] =
      (some [Instruction.OriginDerective 0x3000, Instruction.FillDerective 7,
        Instruction.EndDerective], [("L", 1)]) ∧
     ([Instruction.OriginDerective 0x3000].map specWordsEmitted).sum = 0) := by
  refine ⟨⟨by decide, by decide⟩, ⟨by decide, by decide⟩⟩

end LC3
